import Mathlib

/-!
Shallow embedding of the Transaction Analytics Engine of this repository
(`src/App.tsx`): duplicate detection, anomaly scoring, recurrence
classification (`performAdvancedAnalytics`), and the summary builder
(`getAnalyticsSummary`, `getChartData`).

Modelling conventions:
* JS numbers are modelled as exact rationals (`ℚ`); `Math.sqrt` as
  `Real.sqrt`, so anomaly z-scores live in `ℝ` before being rounded back
  to a rational by the `toFixed(2)`/`parseFloat` step.
* JS strings are Lean `String`s; `toLowerCase`/`trim` are modelled by
  `String.toLower`/`String.trim` (exact on the ASCII data the claims use).
* A JS `Map` built by iterated `set` is modelled by its observable
  content: per-key accumulated values, keys enumerated in first-insertion
  order (`dedupFirstAux`).
* `Array.prototype.sort` (stable since ES2019) with a numeric comparator
  is modelled by a stable insertion sort (`sortStable`); for a consistent
  comparator every stable sort has the same output.
-/

namespace StatementOCR

/-- The `Transaction` interface of `App.tsx`: raw fields plus the three
optional derived analytics fields. -/
structure Transaction where
  date : String
  description : String
  amount : ℚ
  category : String
  notes : String
  duplicateFlag : Option Bool := none
  anomalyScore : Option ℚ := none
  isRecurring : Option Bool := none
deriving DecidableEq

instance : Inhabited Transaction :=
  ⟨{ date := "", description := "", amount := 0, category := "", notes := "" }⟩

/-- JS template stringification of a number, as used in the duplicate key
`` `${t.date}-${t.description}-${t.amount}` ``. Exact for integral values
(JS prints `-5` for `-5`), which is all the development evaluates it on. -/
def numStr (q : ℚ) : String :=
  if q.den = 1 then toString q.num else toString q

/-- The duplicate-detection key `` `${t.date}-${t.description}-${t.amount}` ``
(App.tsx line 216): a single string built by concatenation with `-`. -/
def keyOf (t : Transaction) : String :=
  t.date ++ "-" ++ t.description ++ "-" ++ numStr t.amount

/-- Occurrence count of a key over the batch: the content of the `seen`
map built at App.tsx lines 214-218. -/
def keyCount (data : List Transaction) (k : String) : ℕ :=
  data.countP (fun t => keyOf t == k)

/-- `data.map(t => Math.abs(t.amount))` (App.tsx line 221). -/
def absAmounts (data : List Transaction) : List ℚ :=
  data.map (fun t => |t.amount|)

/-- `amounts.reduce((a, b) => a + b, 0) / amounts.length` (App.tsx 222). -/
def meanAbs (data : List Transaction) : ℚ :=
  (absAmounts data).foldl (· + ·) 0 / (absAmounts data).length

/-- `amounts.reduce((a, b) => a + Math.pow(b - mean, 2), 0) / amounts.length`
(App.tsx line 223). -/
def varAbs (data : List Transaction) : ℚ :=
  (absAmounts data).foldl (fun a b => a + (b - meanAbs data) ^ 2) 0 /
    (absAmounts data).length

/-- `Math.sqrt(variance)` (App.tsx line 224). -/
noncomputable def stdDevAbs (data : List Transaction) : ℝ :=
  Real.sqrt (varAbs data)

/-- `parseFloat(x.toFixed(2))`: round to 2 decimal places, ties away from
zero (ECMA `toFixed` takes the absolute value first and rounds half up). -/
noncomputable def round2 (x : ℝ) : ℚ :=
  if 0 ≤ x then (⌊x * 100 + 1 / 2⌋ : ℚ) / 100
  else -((⌊-x * 100 + 1 / 2⌋ : ℚ) / 100)

/-- Per-record anomaly score (App.tsx lines 240-241, 246):
`stdDev > 0 ? (absAmount - mean) / stdDev : 0`, then `toFixed(2)`. -/
noncomputable def anomalyScoreOf (data : List Transaction) (t : Transaction) : ℚ :=
  if 0 < stdDevAbs data then
    round2 (((|t.amount| - meanAbs data : ℚ) : ℝ) / stdDevAbs data)
  else 0

/-- `String.prototype.toLowerCase`, modelled character by character
(kernel-reducible, unlike `String.toLower`'s byte-position recursion). -/
def toLowerStr (s : String) : String :=
  String.mk (s.data.map Char.toLower)

/-- `String.prototype.trim`: drop leading and trailing whitespace. -/
def trimStr (s : String) : String :=
  String.mk (((s.data.dropWhile Char.isWhitespace).reverse.dropWhile
    Char.isWhitespace).reverse)

/-- Remove every decimal digit character, the effect of
`replace(/\d+/g, '')`. -/
def stripDigits (s : String) : String :=
  String.mk (s.data.filter (fun c => !c.isDigit))

/-- `t.description.toLowerCase().replace(/\d+/g, '').trim()`
(App.tsx lines 229, 236). -/
def normDesc (t : Transaction) : String :=
  trimStr (stripDigits (toLowerStr t.description))

/-- The array stored in the `descGroups` map for a normalized description:
the absolute amounts of every record whose description normalizes to it,
in batch order (App.tsx lines 227-232). -/
def descGroup (data : List Transaction) (nd : String) : List ℚ :=
  (data.filter (fun t => normDesc t == nd)).map (fun t => |t.amount|)

/-- The record returned by the `data.map` at App.tsx lines 234-249:
the input record with the three derived fields filled in. -/
noncomputable def analyzeOne (data : List Transaction) (t : Transaction) : Transaction :=
  { t with
    duplicateFlag := some (decide (1 < keyCount data (keyOf t)))
    anomalyScore := some (anomalyScoreOf data t)
    isRecurring := some (decide (2 ≤ (descGroup data (normDesc t)).length)) }

/-- `performAdvancedAnalytics` (App.tsx lines 210-250). -/
noncomputable def analyze (data : List Transaction) : List Transaction :=
  if data.isEmpty then [] else data.map (analyzeOne data)

/-! ### Summary builder (`getAnalyticsSummary`, `getChartData`) -/

/-- Stable insertion step: `x` goes after every element `h` the comparator
keeps strictly before it (`sb h x = true`), and before everything else —
in particular before elements that compare equal, matching a stable sort
of a list in which `x` precedes them. -/
def insertStable (sb : α → α → Bool) (x : α) : List α → List α
  | [] => [x]
  | h :: t => if sb h x then h :: insertStable sb x t else x :: h :: t

/-- Model of ES2019 `Array.prototype.sort` (stable) with comparator
"`sb a b` iff the comparator orders `a` strictly before `b`". For a
consistent comparator every stable sort produces this output. -/
def sortStable (sb : α → α → Bool) (l : List α) : List α :=
  l.foldr (insertStable sb) []

/-- Keys of a JS `Map` in first-insertion order: drop every later
duplicate. -/
def dedupFirstAux (seen : List String) : List String → List String
  | [] => []
  | d :: rest =>
    if seen.contains d then dedupFirstAux seen rest
    else d :: dedupFirstAux (d :: seen) rest

/-- Split a character list at `-` separators. -/
def splitDashAux (acc : List Char) : List Char → List (List Char)
  | [] => [acc.reverse]
  | c :: cs =>
    if c = '-' then acc.reverse :: splitDashAux [] cs
    else splitDashAux (c :: acc) cs

/-- Value of a chunk of decimal digits, `0` if the chunk is empty or holds
a non-digit. -/
def chunkNat (cs : List Char) : ℕ :=
  if cs ≠ [] ∧ cs.all Char.isDigit then
    cs.foldl (fun n c => n * 10 + (c.toNat - 48)) 0
  else 0

/-- Order-faithful key for `new Date(s).getTime()` on canonical
`YYYY-MM-DD` strings: the number `yyyymmdd`. Only the induced order is
used (the sort comparator at App.tsx line 327 and the chronological-order
claims); on canonical dates it is order-isomorphic to the epoch time. -/
def dateNum (s : String) : ℕ :=
  match splitDashAux [] s.data with
  | [y, m, d] => chunkNat y * 10000 + chunkNat m * 100 + chunkNat d
  | _ => 0

/-- The value the `spikesMap` holds at date `d`: accumulated `abs(amount)`
over the records with `amount < 0` and that exact date string
(App.tsx lines 319-324). -/
def spikeAmt (tx : List Transaction) (d : String) : ℚ :=
  ((tx.filter (fun t => decide (t.amount < 0) && t.date == d)).map
    (fun t => |t.amount|)).foldl (· + ·) 0

/-- `Array.from(spikesMap.entries()).map(([date, amount]) => ({date, amount}))`:
one `(date, total)` pair per distinct date of a negative-amount record, in
first-insertion order. -/
def spikePairs (tx : List Transaction) : List (String × ℚ) :=
  (dedupFirstAux [] ((tx.filter (fun t => decide (t.amount < 0))).map (·.date))).map
    (fun d => (d, spikeAmt tx d))

/-- `spikesData` (App.tsx lines 325-327): the pairs sorted ascending by
`new Date(date).getTime()`. -/
def spikesData (tx : List Transaction) : List (String × ℚ) :=
  sortStable (fun a b => decide (dateNum a.1 < dateNum b.1)) (spikePairs tx)

/-- The `anomalyData` series (App.tsx lines 330-334): `(index, score,
description)` for records with `(anomalyScore || 0) > 1`. -/
def anomalyData (tx : List Transaction) : List (ℕ × ℚ × String) :=
  (tx.enum.filter (fun p => decide (1 < p.2.anomalyScore.getD 0))).map
    (fun p => (p.1, p.2.anomalyScore.getD 0, p.2.description))

/-- The summary object returned by `getAnalyticsSummary`
(App.tsx lines 336-346). -/
structure Summary where
  totalRecords : ℕ
  totalSpending : ℚ
  totalIncome : ℚ
  duplicates : ℕ
  suspicious : ℕ
  highest : Transaction
  lowest : Transaction
  spikesData : List (String × ℚ)
  anomalyData : List (ℕ × ℚ × String)
deriving DecidableEq

/-- `getAnalyticsSummary` (App.tsx lines 308-347). `null` on an empty
batch; otherwise totals, duplicate/suspicious counts, extremes via a
stable sort on signed amount, the daily-spike series, and the anomaly
series. -/
def getAnalyticsSummary (tx : List Transaction) : Option Summary :=
  if tx.isEmpty then none
  else some
    { totalRecords := tx.length
      totalSpending :=
        (tx.filter (fun t => decide (t.amount < 0))).foldl (fun acc t => acc + |t.amount|) 0
      totalIncome :=
        (tx.filter (fun t => decide (0 < t.amount))).foldl (fun acc t => acc + t.amount) 0
      duplicates := tx.countP (fun t => t.duplicateFlag.getD false)
      suspicious := tx.countP (fun t => decide (2 < t.anomalyScore.getD 0))
      highest := (sortStable (fun a b => decide (b.amount < a.amount)) tx).headI
      lowest := (sortStable (fun a b => decide (a.amount < b.amount)) tx).headI
      spikesData := spikesData tx
      anomalyData := anomalyData tx }

/-- `name.charAt(0).toUpperCase() + name.slice(1)` (App.tsx line 301). -/
def capFirst (s : String) : String :=
  match s.data with
  | [] => ""
  | c :: rest => String.mk (c.toUpper :: rest)

/-- `parseFloat(value.toFixed(2))` on an exact rational: round to 2
decimal places, ties away from zero. -/
def round2Rat (x : ℚ) : ℚ :=
  if 0 ≤ x then (⌊x * 100 + 1 / 2⌋ : ℚ) / 100
  else -((⌊-x * 100 + 1 / 2⌋ : ℚ) / 100)

/-- The value accumulated in `spendingByCategory` for a lower-cased
category key (App.tsx lines 291-298). -/
def catAmt (tx : List Transaction) (c : String) : ℚ :=
  ((tx.filter (fun t => decide (t.amount < 0) && toLowerStr t.category == c)).map
    (fun t => |t.amount|)).foldl (· + ·) 0

/-- `getChartData` (App.tsx lines 290-304): per-category spend over the
negative-amount records, keys lower-cased, emitted capitalized and
rounded, sorted descending by value. -/
def getChartData (tx : List Transaction) : List (String × ℚ) :=
  sortStable (fun a b => decide (b.2 < a.2))
    ((dedupFirstAux []
        ((tx.filter (fun t => decide (t.amount < 0))).map (fun t => toLowerStr t.category))).map
      (fun c => (capFirst c, round2Rat (catAmt tx c))))

/-! ### Spec-side definitions for the anomaly-scorer refinement (§4.2)

A second formulation of the anomaly score written from the words of the
spec, to be compared with the source-derived `anomalyScoreOf`. -/

/-- Spec §4.2: the mean of `abs(amount)` across the entire batch. -/
def specMean (b : List Transaction) : ℚ :=
  (b.map (fun t => |t.amount|)).sum / b.length

/-- Spec §4.2: the population variance (denominator `N`, not `N-1`) of
`abs(amount)` across the entire batch. -/
def specVar (b : List Transaction) : ℚ :=
  (b.map (fun t => (|t.amount| - specMean b) ^ 2)).sum / b.length

/-- Spec §4.2/glossary: the population standard deviation. -/
noncomputable def specStd (b : List Transaction) : ℝ :=
  Real.sqrt (specVar b)

/-- Spec §4.2: `score = stdDev > 0 ? (abs(amount) - mean) / stdDev : 0`,
rounded to 2 decimal places, half away from zero. -/
noncomputable def specScore (b : List Transaction) (t : Transaction) : ℚ :=
  if 0 < specStd b then round2 (((|t.amount| - specMean b : ℚ) : ℝ) / specStd b)
  else 0

/-! ### Spec-side predicates and concrete batches used by the claims -/

/-- Identical `(date, description, amount)` triple, the duplicate
criterion as the spec words it (exact equality, no normalization). -/
def sameTriple (u t : Transaction) : Prop :=
  u.date = t.date ∧ u.description = t.description ∧ u.amount = t.amount

instance (u t : Transaction) : Decidable (sameTriple u t) :=
  inferInstanceAs (Decidable (_ ∧ _ ∧ _))

/-- Two records with distinct `(date, description, amount)` triples whose
concatenated duplicate keys (`"a-b" + "-" + "c" + "-" + "1"` and
`"a" + "-" + "b-c" + "-" + "1"`) are both the string `"a-b-c-1"`. -/
def exKeyClash : List Transaction :=
  [{ date := "a-b", description := "c", amount := 1, category := "other", notes := "" },
   { date := "a", description := "b-c", amount := 1, category := "other", notes := "" }]

/-- The spec's recurrence example records. -/
def txNetflix1 : Transaction :=
  { date := "2024-01-05", description := "Netflix Subscription 123", amount := -10,
    category := "bills", notes := "" }

def txNetflix2 : Transaction :=
  { date := "2024-02-05", description := "netflix subscription 456", amount := -11,
    category := "bills", notes := "" }

/-- The spec's anomaly-scorer example batch `[{amount:-100}, {amount:-300}]`. -/
def exTwoA : Transaction :=
  { date := "2024-01-01", description := "a", amount := -100, category := "other", notes := "" }

def exTwoB : Transaction :=
  { date := "2024-01-02", description := "b", amount := -300, category := "other", notes := "" }

def exTwo : List Transaction := [exTwoA, exTwoB]

/-- Two distinct records with identical `(date, description, amount)`. -/
def exDup : List Transaction :=
  [{ date := "2024-03-01", description := "Coffee", amount := -4, category := "dining",
     notes := "first" },
   { date := "2024-03-01", description := "Coffee", amount := -4, category := "other",
     notes := "second" }]

/-- A batch whose amounts all have the same absolute value. -/
def exFlat : List Transaction :=
  [{ date := "2024-01-01", description := "in", amount := 5, category := "other", notes := "" },
   { date := "2024-01-02", description := "out", amount := -5, category := "other", notes := "" }]

/-- A non-empty batch with only positive amounts. -/
def exPos : List Transaction :=
  [{ date := "2024-04-01", description := "salary", amount := 1000, category := "salary",
     notes := "" },
   { date := "2024-04-02", description := "refund", amount := 25, category := "other",
     notes := "" }]

/-- A batch with ties in both the maximal and the minimal amount. -/
def exTies : List Transaction :=
  [{ date := "d1", description := "a", amount := 5, category := "other", notes := "" },
   { date := "d2", description := "b", amount := 9, category := "other", notes := "" },
   { date := "d3", description := "c", amount := 9, category := "other", notes := "" },
   { date := "d4", description := "d", amount := 3, category := "other", notes := "" },
   { date := "d5", description := "e", amount := 3, category := "other", notes := "" }]

/-- The spec's spikes example batch. -/
def exSpikes : List Transaction :=
  [{ date := "2024-01-02", description := "a", amount := -50, category := "dining", notes := "" },
   { date := "2024-01-01", description := "b", amount := -20, category := "dining", notes := "" }]

/-! ### Basic lemmas about `analyze` -/

theorem analyze_eq_map (data : List Transaction) :
    analyze data = data.map (analyzeOne data) := by
  cases data with
  | nil => rfl
  | cons x xs => rfl

theorem analyze_length (data : List Transaction) :
    (analyze data).length = data.length := by
  rw [analyze_eq_map, List.length_map]

theorem foldl_add_eq_sum (f : α → ℚ) (l : List α) (a : ℚ) :
    l.foldl (fun acc x => acc + f x) a = a + (l.map f).sum := by
  induction l generalizing a with
  | nil => simp
  | cons x xs ih => simp [ih, add_assoc]

theorem absAmounts_analyze (data : List Transaction) :
    absAmounts (analyze data) = absAmounts data := by
  rw [analyze_eq_map]
  simp only [absAmounts, List.map_map]
  rfl

theorem meanAbs_analyze (data : List Transaction) :
    meanAbs (analyze data) = meanAbs data := by
  simp only [meanAbs, absAmounts_analyze]

theorem varAbs_analyze (data : List Transaction) :
    varAbs (analyze data) = varAbs data := by
  simp only [varAbs, absAmounts_analyze, meanAbs_analyze]

theorem stdDevAbs_analyze (data : List Transaction) :
    stdDevAbs (analyze data) = stdDevAbs data := by
  simp only [stdDevAbs, varAbs_analyze]

theorem anomalyScoreOf_analyze (data : List Transaction) (t : Transaction) :
    anomalyScoreOf (analyze data) t = anomalyScoreOf data t := by
  simp only [anomalyScoreOf, stdDevAbs_analyze, meanAbs_analyze]

theorem keyCount_analyze (data : List Transaction) (k : String) :
    keyCount (analyze data) k = keyCount data k := by
  rw [analyze_eq_map]
  simp only [keyCount, List.countP_map]
  rfl

theorem descGroup_length_analyze (data : List Transaction) (nd : String) :
    (descGroup (analyze data) nd).length = (descGroup data nd).length := by
  rw [analyze_eq_map]
  simp only [descGroup, List.length_map, ← List.countP_eq_length_filter,
    List.countP_map]
  rfl

theorem analyzeOne_raw (data : List Transaction) (t : Transaction) :
    (analyzeOne data t).date = t.date ∧ (analyzeOne data t).description = t.description ∧
      (analyzeOne data t).amount = t.amount ∧ (analyzeOne data t).category = t.category ∧
      (analyzeOne data t).notes = t.notes :=
  ⟨rfl, rfl, rfl, rfl, rfl⟩

theorem analyzeOne_idem (b : List Transaction) (t : Transaction) :
    analyzeOne (analyze b) (analyzeOne b t) = analyzeOne b t := by
  calc analyzeOne (analyze b) (analyzeOne b t)
      = { t with
          duplicateFlag := some (decide (1 < keyCount (analyze b) (keyOf t)))
          anomalyScore := some (anomalyScoreOf (analyze b) t)
          isRecurring := some (decide (2 ≤ (descGroup (analyze b) (normDesc t)).length)) } :=
        rfl
    _ = analyzeOne b t := by
        rw [keyCount_analyze, anomalyScoreOf_analyze, descGroup_length_analyze]; rfl

/-- C5: `analyze` is idempotent — re-analyzing its own output (whose raw
fields it left unchanged) reproduces the very same records, and in
particular the same `duplicateFlag`, `anomalyScore` and `isRecurring` on
every record. -/
theorem claim_C5 (b : List Transaction) : analyze (analyze b) = analyze b := by
  rw [analyze_eq_map (analyze b), analyze_eq_map b, List.map_map]
  congr 1
  funext t
  show analyzeOne (b.map (analyzeOne b)) (analyzeOne b t) = analyzeOne b t
  rw [← analyze_eq_map b]
  exact analyzeOne_idem b t

/-- C9: `analyze` is a per-record frame: the output has the same length
and order, every raw field (`date`, `description`, `amount`, `category`,
`notes`) of the record at each position is unchanged, only the three
derived fields are filled in, and empty input yields empty output. -/
theorem claim_C9 (b : List Transaction) :
    analyze ([] : List Transaction) = [] ∧
    (analyze b).length = b.length ∧
    (analyze b).map (fun t => t.date) = b.map (fun t => t.date) ∧
    (analyze b).map (fun t => t.description) = b.map (fun t => t.description) ∧
    (analyze b).map (fun t => t.amount) = b.map (fun t => t.amount) ∧
    (analyze b).map (fun t => t.category) = b.map (fun t => t.category) ∧
    (analyze b).map (fun t => t.notes) = b.map (fun t => t.notes) ∧
    (analyze b).all
      (fun t => t.duplicateFlag.isSome && t.anomalyScore.isSome && t.isRecurring.isSome) =
      true := by
  refine ⟨rfl, analyze_length b, ?_, ?_, ?_, ?_, ?_, ?_⟩ <;> rw [analyze_eq_map]
  · rw [List.map_map]; rfl
  · rw [List.map_map]; rfl
  · rw [List.map_map]; rfl
  · rw [List.map_map]; rfl
  · rw [List.map_map]; rfl
  · refine List.all_eq_true.mpr ?_
    intro x hx
    obtain ⟨t, -, rfl⟩ := List.mem_map.mp hx
    rfl

theorem analyze_get (b : List Transaction) (i : Fin (analyze b).length) :
    (analyze b).get i = analyzeOne b (b.get (Fin.cast (analyze_length b) i)) := by
  rw [List.get_of_eq (analyze_eq_map b) i, List.get_eq_getElem, List.getElem_map,
    List.get_eq_getElem]
  rfl

/-! ### Counting matches versus positions -/

theorem countP_eq_card_fin (p : α → Bool) :
    ∀ l : List α,
      l.countP p = (Finset.univ.filter (fun i : Fin l.length => p (l.get i) = true)).card
  | [] => by simp
  | x :: xs => by
    have hs : ∑ i : Fin (x :: xs).length, (if p ((x :: xs).get i) = true then 1 else 0 : ℕ) =
        (if p x = true then 1 else 0) +
          ∑ i : Fin xs.length, (if p (xs.get i) = true then 1 else 0 : ℕ) :=
      Fin.sum_univ_succ (fun i : Fin (xs.length + 1) => if p ((x :: xs).get i) = true then 1 else 0)
    rw [List.countP_cons, countP_eq_card_fin p xs, Finset.card_filter, Finset.card_filter, hs]
    omega

theorem two_le_countP_iff (l : List α) (p : α → Bool) (i : Fin l.length)
    (hp : p (l.get i) = true) :
    2 ≤ l.countP p ↔ ∃ j : Fin l.length, j ≠ i ∧ p (l.get j) = true := by
  rw [countP_eq_card_fin]
  constructor
  · intro h
    obtain ⟨a, ha, c, hc, hac⟩ := Finset.one_lt_card.mp h
    obtain ⟨-, hpa⟩ := Finset.mem_filter.mp ha
    obtain ⟨-, hpc⟩ := Finset.mem_filter.mp hc
    by_cases hai : a = i
    · exact ⟨c, fun hci => hac (hai.trans hci.symm), hpc⟩
    · exact ⟨a, hai, hpa⟩
  · rintro ⟨j, hj, hpj⟩
    have hi : i ∈ Finset.univ.filter (fun i : Fin l.length => p (l.get i) = true) :=
      Finset.mem_filter.mpr ⟨Finset.mem_univ _, hp⟩
    have hjm : j ∈ Finset.univ.filter (fun i : Fin l.length => p (l.get i) = true) :=
      Finset.mem_filter.mpr ⟨Finset.mem_univ _, hpj⟩
    calc 2 = ({j, i} : Finset (Fin l.length)).card := (Finset.card_pair hj).symm
      _ ≤ _ := Finset.card_le_card (by
          intro x hx
          rcases Finset.mem_insert.mp hx with h | h
          · exact h ▸ hjm
          · exact (Finset.mem_singleton.mp h) ▸ hi)

theorem descGroup_length (data : List Transaction) (nd : String) :
    (descGroup data nd).length = data.countP (fun t => normDesc t == nd) := by
  simp [descGroup, List.length_map, List.countP_eq_length_filter]

/-- C1 counterexample: in the batch `exKeyClash` the two records have
different `(date, description, amount)` triples, yet record 0 is flagged
`duplicateFlag = true` because the two concatenated key strings collide;
so "flagged iff some other record has an identical triple" is false. -/
theorem claim_C1_counterexample :
    ¬ (((analyze exKeyClash).get ⟨0, by decide⟩).duplicateFlag = some true ↔
        ∃ j : Fin exKeyClash.length, j ≠ ⟨0, by decide⟩ ∧
          sameTriple (exKeyClash.get j) (exKeyClash.get ⟨0, by decide⟩)) := by
  decide

/-- C1 (amended): a record is flagged `duplicateFlag = true` iff at least
one other record in the batch has the same concatenated key string
`date + "-" + description + "-" + amount`; identical triples always
collide on this key, but distinct triples may too. -/
theorem claim_C1_amended (b : List Transaction) (i : Fin (analyze b).length) :
    ((analyze b).get i).duplicateFlag = some true ↔
      ∃ j : Fin b.length, j ≠ Fin.cast (analyze_length b) i ∧
        keyOf (b.get j) = keyOf (b.get (Fin.cast (analyze_length b) i)) := by
  rw [analyze_get]
  have hL : (analyzeOne b (b.get (Fin.cast (analyze_length b) i))).duplicateFlag =
      some (decide (1 < keyCount b (keyOf (b.get (Fin.cast (analyze_length b) i))))) := rfl
  rw [hL]
  have hiff := two_le_countP_iff b
    (fun t => keyOf t == keyOf (b.get (Fin.cast (analyze_length b) i)))
    (Fin.cast (analyze_length b) i) (beq_self_eq_true _)
  constructor
  · intro h
    have h1 : 1 < keyCount b (keyOf (b.get (Fin.cast (analyze_length b) i))) :=
      of_decide_eq_true (Option.some.inj h)
    obtain ⟨j, hj, hpj⟩ := hiff.mp h1
    exact ⟨j, hj, eq_of_beq hpj⟩
  · rintro ⟨j, hj, hkey⟩
    have h2 : 2 ≤ keyCount b (keyOf (b.get (Fin.cast (analyze_length b) i))) :=
      hiff.mpr ⟨j, hj, by
        show (keyOf (b.get j) == keyOf (b.get (Fin.cast (analyze_length b) i))) = true
        rw [hkey]; exact beq_self_eq_true _⟩
    exact congrArg some (decide_eq_true h2)

/-- C4: a record is flagged `isRecurring = true` iff at least 2 records of
the batch share its normalized description (lower-case, strip decimal
digits, trim); and the spec's two example descriptions both normalize to
`"netflix subscription"` and are jointly flagged. -/
theorem claim_C4 (b : List Transaction) :
    ((analyze b).map (fun t => t.isRecurring) =
      b.map (fun t => some (decide (2 ≤ b.countP (fun u => normDesc u == normDesc t))))) ∧
    normDesc txNetflix1 = "netflix subscription" ∧
    normDesc txNetflix2 = "netflix subscription" ∧
    (analyze [txNetflix1, txNetflix2]).map (fun t => t.isRecurring) =
      [some true, some true] := by
  refine ⟨?_, by decide, by decide, by decide⟩
  rw [analyze_eq_map, List.map_map]
  congr 1
  funext t
  show some (decide (2 ≤ (descGroup b (normDesc t)).length)) = _
  rw [descGroup_length]

/-- C10: two distinct records with an identical `(date, description,
amount)` triple are both flagged as duplicates and both flagged as
recurring (their equal descriptions put two members in the same
normalized-description group). -/
theorem claim_C10 (b : List Transaction) (i j : Fin b.length) (hij : i ≠ j)
    (htr : sameTriple (b.get i) (b.get j)) :
    ((analyze b).get (Fin.cast (analyze_length b).symm i)).duplicateFlag = some true ∧
    ((analyze b).get (Fin.cast (analyze_length b).symm i)).isRecurring = some true ∧
    ((analyze b).get (Fin.cast (analyze_length b).symm j)).duplicateFlag = some true ∧
    ((analyze b).get (Fin.cast (analyze_length b).symm j)).isRecurring = some true := by
  obtain ⟨hd, hdesc, ha⟩ := htr
  have hkey : keyOf (b.get i) = keyOf (b.get j) := by
    unfold keyOf; rw [hd, hdesc, ha]
  have hnorm : normDesc (b.get i) = normDesc (b.get j) := by
    unfold normDesc; rw [hdesc]
  have main : ∀ (a c : Fin b.length), a ≠ c → keyOf (b.get c) = keyOf (b.get a) →
      normDesc (b.get c) = normDesc (b.get a) →
      ((analyze b).get (Fin.cast (analyze_length b).symm a)).duplicateFlag = some true ∧
      ((analyze b).get (Fin.cast (analyze_length b).symm a)).isRecurring = some true := by
    intro a c hac hk hn
    have hcast : Fin.cast (analyze_length b) (Fin.cast (analyze_length b).symm a) = a := rfl
    rw [analyze_get, hcast]
    have hdup : 2 ≤ keyCount b (keyOf (b.get a)) :=
      (two_le_countP_iff b (fun t => keyOf t == keyOf (b.get a)) a (beq_self_eq_true _)).mpr
        ⟨c, fun h => hac h.symm, by
          show (keyOf (b.get c) == keyOf (b.get a)) = true
          rw [hk]; exact beq_self_eq_true _⟩
    have hrec : 2 ≤ b.countP (fun u => normDesc u == normDesc (b.get a)) :=
      (two_le_countP_iff b (fun u => normDesc u == normDesc (b.get a)) a
          (beq_self_eq_true _)).mpr
        ⟨c, fun h => hac h.symm, by
          show (normDesc (b.get c) == normDesc (b.get a)) = true
          rw [hn]; exact beq_self_eq_true _⟩
    constructor
    · show some (decide (1 < keyCount b (keyOf (b.get a)))) = some true
      exact congrArg some (decide_eq_true hdup)
    · show some (decide (2 ≤ (descGroup b (normDesc (b.get a))).length)) = some true
      rw [descGroup_length]
      exact congrArg some (decide_eq_true hrec)
  obtain ⟨d1, r1⟩ := main i j hij hkey.symm hnorm.symm
  obtain ⟨d2, r2⟩ := main j i (fun h => hij h.symm) hkey hnorm
  exact ⟨d1, r1, d2, r2⟩

theorem claim_C10_witness :
    ((⟨0, by decide⟩ : Fin exDup.length) ≠ ⟨1, by decide⟩ ∧
      sameTriple (exDup.get ⟨0, by decide⟩) (exDup.get ⟨1, by decide⟩)) ∧
    (((analyze exDup).get
        (Fin.cast (analyze_length exDup).symm ⟨0, by decide⟩)).duplicateFlag = some true ∧
      ((analyze exDup).get
        (Fin.cast (analyze_length exDup).symm ⟨0, by decide⟩)).isRecurring = some true ∧
      ((analyze exDup).get
        (Fin.cast (analyze_length exDup).symm ⟨1, by decide⟩)).duplicateFlag = some true ∧
      ((analyze exDup).get
        (Fin.cast (analyze_length exDup).symm ⟨1, by decide⟩)).isRecurring = some true) :=
  ⟨⟨by decide, by decide⟩,
    claim_C10 exDup ⟨0, by decide⟩ ⟨1, by decide⟩ (by decide) (by decide)⟩

theorem foldl_add_id (l : List ℚ) (a : ℚ) : l.foldl (· + ·) a = a + l.sum := by
  induction l generalizing a with
  | nil => simp
  | cons x xs ih => simp [ih, add_assoc]

/-- C3: if every record of the batch has the same absolute amount (so the
population standard deviation is 0, which covers every singleton batch),
every record's anomaly score is exactly 0 — the guarded branch, not a
division. -/
theorem claim_C3 (b : List Transaction)
    (h : ∀ t ∈ b, ∀ u ∈ b, |t.amount| = |u.amount|) :
    ∀ t ∈ analyze b, t.anomalyScore = some 0 := by
  intro t ht
  rw [analyze_eq_map] at ht
  obtain ⟨u, hu, rfl⟩ := List.mem_map.mp ht
  have hall : ∀ x ∈ absAmounts b, x = |u.amount| := by
    intro x hx
    obtain ⟨v, hv, rfl⟩ := List.mem_map.mp hx
    exact h v hv u hu
  have hlen0 : ((absAmounts b).length : ℚ) ≠ 0 := by
    have : 0 < (absAmounts b).length :=
      List.length_pos.mpr (List.ne_nil_of_mem (List.mem_map_of_mem _ hu))
    exact_mod_cast this.ne'
  have hmean : meanAbs b = |u.amount| := by
    unfold meanAbs
    rw [foldl_add_id, zero_add, List.sum_eq_card_nsmul _ _ hall, nsmul_eq_mul,
      mul_div_cancel_left₀ _ hlen0]
  have hvar : varAbs b = 0 := by
    unfold varAbs
    rw [foldl_add_eq_sum (fun x => (x - meanAbs b) ^ 2), zero_add,
      List.sum_eq_card_nsmul _ 0 (by
        intro x hx
        obtain ⟨y, hy, rfl⟩ := List.mem_map.mp hx
        rw [hall y hy, hmean, sub_self]
        ring)]
    simp
  have hstd : stdDevAbs b = 0 := by
    unfold stdDevAbs
    rw [hvar]
    simp
  show some (anomalyScoreOf b u) = some 0
  unfold anomalyScoreOf
  rw [hstd]
  simp

theorem claim_C3_witness :
    (∀ t ∈ exFlat, ∀ u ∈ exFlat, |t.amount| = |u.amount|) ∧
    ∀ t ∈ analyze exFlat, t.anomalyScore = some 0 :=
  ⟨by decide, claim_C3 exFlat (by decide)⟩

/-! ### The anomaly scorer refines the spec's formulation (C2) -/

theorem anomaly_eq_spec (b : List Transaction) (t : Transaction) :
    anomalyScoreOf b t = specScore b t := by
  have hm : meanAbs b = specMean b := by
    unfold meanAbs specMean absAmounts
    rw [foldl_add_id, zero_add, List.length_map]
  have hv : varAbs b = specVar b := by
    unfold varAbs specVar
    rw [foldl_add_eq_sum (fun x => (x - meanAbs b) ^ 2), zero_add]
    simp only [absAmounts, List.map_map, hm, List.length_map]
    rfl
  have hs : stdDevAbs b = specStd b := by
    unfold stdDevAbs specStd
    rw [hv]
  unfold anomalyScoreOf specScore
  rw [hm, hs]

theorem round2_neg_one : round2 (-1 : ℝ) = -1 := by
  unfold round2
  rw [if_neg (by norm_num : ¬ (0 : ℝ) ≤ -1)]
  rw [show (-(-1 : ℝ) * 100 + 1 / 2) = 201 / 2 by norm_num]
  rw [show ⌊(201 / 2 : ℝ)⌋ = 100 from Int.floor_eq_iff.mpr (by norm_num)]
  norm_num

theorem round2_one : round2 (1 : ℝ) = 1 := by
  unfold round2
  rw [if_pos (by norm_num : (0 : ℝ) ≤ 1)]
  rw [show ((1 : ℝ) * 100 + 1 / 2) = 201 / 2 by norm_num]
  rw [show ⌊(201 / 2 : ℝ)⌋ = 100 from Int.floor_eq_iff.mpr (by norm_num)]
  norm_num

theorem spec_mean_exTwo : specMean exTwo = 200 := by
  unfold specMean exTwo exTwoA exTwoB
  norm_num [abs_of_nonpos]

theorem spec_var_exTwo : specVar exTwo = 10000 := by
  unfold specVar
  rw [spec_mean_exTwo]
  unfold exTwo exTwoA exTwoB
  norm_num [abs_of_nonpos]

theorem spec_std_exTwo : specStd exTwo = 100 := by
  unfold specStd
  rw [spec_var_exTwo, show ((10000 : ℚ) : ℝ) = 100 ^ 2 by norm_num,
    Real.sqrt_sq (by norm_num : (0 : ℝ) ≤ 100)]

theorem spec_score_exTwoA : specScore exTwo exTwoA = -1 := by
  unfold specScore
  rw [spec_std_exTwo, spec_mean_exTwo, if_pos (by norm_num : (0 : ℝ) < 100)]
  rw [show ((|exTwoA.amount| - 200 : ℚ) : ℝ) / (100 : ℝ) = -1 by
    rw [show |exTwoA.amount| = 100 by unfold exTwoA; norm_num [abs_of_nonpos]]
    norm_num]
  exact round2_neg_one

theorem spec_score_exTwoB : specScore exTwo exTwoB = 1 := by
  unfold specScore
  rw [spec_std_exTwo, spec_mean_exTwo, if_pos (by norm_num : (0 : ℝ) < 100)]
  rw [show ((|exTwoB.amount| - 200 : ℚ) : ℝ) / (100 : ℝ) = 1 by
    rw [show |exTwoB.amount| = 300 by unfold exTwoB; norm_num [abs_of_nonpos]]
    norm_num]
  exact round2_one

/-- C2: every record's `anomalyScore` is the spec's z-score of
`abs(amount)` against the batch's mean and population standard deviation
(denominator `N`), rounded to 2 decimals half away from zero; and on the
batch `[{amount:-100}, {amount:-300}]` the scores come out `[-1, 1]`. -/
theorem claim_C2 :
    (∀ b : List Transaction,
        (analyze b).map (fun t => t.anomalyScore) = b.map (fun t => some (specScore b t))) ∧
    (analyze exTwo).map (fun t => t.anomalyScore) = [some (-1), some 1] := by
  have hgen : ∀ b : List Transaction,
      (analyze b).map (fun t => t.anomalyScore) = b.map (fun t => some (specScore b t)) := by
    intro b
    rw [analyze_eq_map, List.map_map]
    congr 1
    funext t
    show some (anomalyScoreOf b t) = some (specScore b t)
    exact congrArg some (anomaly_eq_spec b t)
  refine ⟨hgen, ?_⟩
  rw [hgen exTwo,
    show exTwo.map (fun t => some (specScore exTwo t)) =
      [some (specScore exTwo exTwoA), some (specScore exTwo exTwoB)] from rfl,
    spec_score_exTwoA, spec_score_exTwoB]

/-! ### The stable sort model: permutation, sortedness, head -/

theorem insertStable_perm (sb : α → α → Bool) (x : α) :
    ∀ l : List α, (insertStable sb x l).Perm (x :: l)
  | [] => List.Perm.refl _
  | h :: t => by
    unfold insertStable
    by_cases hc : sb h x = true
    · rw [if_pos hc]
      exact ((insertStable_perm sb x t).cons h).trans (List.Perm.swap x h t)
    · rw [if_neg hc]

theorem sortStable_perm (sb : α → α → Bool) :
    ∀ l : List α, (sortStable sb l).Perm l
  | [] => List.Perm.refl _
  | x :: xs =>
    ((insertStable_perm sb x (sortStable sb xs)).trans
      ((sortStable_perm sb xs).cons x))

theorem insertStable_pairwise {β : Type} [LinearOrder β] (k : α → β) (sb : α → α → Bool)
    (hsb : ∀ a b, sb a b = true ↔ k a < k b) (x : α) :
    ∀ l : List α, l.Pairwise (fun a b => k a ≤ k b) →
      (insertStable sb x l).Pairwise (fun a b => k a ≤ k b)
  | [], _ => List.pairwise_cons.mpr ⟨by simp, List.Pairwise.nil⟩
  | h :: t, hp => by
    obtain ⟨hh, ht⟩ := List.pairwise_cons.mp hp
    unfold insertStable
    by_cases hc : sb h x = true
    · rw [if_pos hc]
      refine List.pairwise_cons.mpr ⟨?_, insertStable_pairwise k sb hsb x t ht⟩
      intro y hy
      rcases List.mem_cons.mp ((insertStable_perm sb x t).mem_iff.mp hy) with rfl | hyt
      · exact le_of_lt ((hsb h y).mp hc)
      · exact hh y hyt
    · rw [if_neg hc]
      have hxh : k x ≤ k h := le_of_not_lt (fun hlt => hc ((hsb h x).mpr hlt))
      refine List.pairwise_cons.mpr ⟨?_, hp⟩
      intro y hy
      rcases List.mem_cons.mp hy with rfl | hyt
      · exact hxh
      · exact hxh.trans (hh y hyt)

theorem sortStable_pairwise {β : Type} [LinearOrder β] (k : α → β) (sb : α → α → Bool)
    (hsb : ∀ a b, sb a b = true ↔ k a < k b) :
    ∀ l : List α, (sortStable sb l).Pairwise (fun a b => k a ≤ k b)
  | [] => List.Pairwise.nil
  | x :: xs =>
    insertStable_pairwise k sb hsb x (sortStable sb xs) (sortStable_pairwise k sb hsb xs)

theorem headI_eq_of_head? [Inhabited α] {l : List α} {v : α} (h : l.head? = some v) :
    l.headI = v := by
  cases l with
  | nil => simp at h
  | cons a t => simpa using h

/-- The head of the stable sort is the *first* element of the input
attaining the minimal key: the earlier elements all have strictly larger
keys, matching first-occurrence tie-breaking of a stable sort. -/
theorem sortStable_head {β : Type} [LinearOrder β] (k : α → β) (sb : α → α → Bool)
    (hsb : ∀ a b, sb a b = true ↔ k a < k b) :
    ∀ l : List α, l ≠ [] →
      ∃ i : Fin l.length, (sortStable sb l).head? = some (l.get i) ∧
        (∀ t ∈ l, k (l.get i) ≤ k t) ∧
        ∀ j : Fin l.length, (j : ℕ) < (i : ℕ) → k (l.get i) < k (l.get j)
  | [], h => absurd rfl h
  | [x], _ =>
    ⟨⟨0, by norm_num⟩, rfl,
      by
        intro t htm
        rw [show t = x from by simpa using htm]
        exact le_refl _,
      fun j hj => absurd hj (Nat.not_lt_zero _)⟩
  | x :: y :: ys, _ => by
    obtain ⟨i', h1, h2, h3⟩ := sortStable_head k sb hsb (y :: ys) (by simp)
    cases hs : sortStable sb (y :: ys) with
    | nil => rw [hs] at h1; simp at h1
    | cons m t =>
      rw [hs] at h1
      have hm : m = (y :: ys).get i' := by simpa using h1
      have hunf : sortStable sb (x :: y :: ys) = insertStable sb x (m :: t) := by
        show insertStable sb x (sortStable sb (y :: ys)) = _
        rw [hs]
      by_cases hc : sb m x = true
      · refine ⟨i'.succ, ?_, ?_, ?_⟩
        · rw [hunf]
          unfold insertStable
          rw [if_pos hc]
          show some m = _
          rw [hm]
          rfl
        · intro u hu
          have hget : (x :: y :: ys).get i'.succ = (y :: ys).get i' := rfl
          rcases List.mem_cons.mp hu with rfl | hmem
          · rw [hget, ← hm]
            exact le_of_lt ((hsb m u).mp hc)
          · rw [hget]
            exact h2 u hmem
        · intro j hj
          have hget : (x :: y :: ys).get i'.succ = (y :: ys).get i' := rfl
          rcases j with ⟨jv, hjv⟩
          cases jv with
          | zero =>
            rw [hget, ← hm]
            exact (hsb m x).mp hc
          | succ jj =>
            have hjj : jj < (i' : ℕ) := by simpa using hj
            rw [hget]
            exact h3 ⟨jj, by omega⟩ hjj
      · refine ⟨⟨0, by norm_num⟩, ?_, ?_, fun j hj => absurd hj (Nat.not_lt_zero _)⟩
        · rw [hunf]
          unfold insertStable
          rw [if_neg hc]
          rfl
        · intro u hu
          have hxm : k x ≤ k m := le_of_not_lt (fun hlt => hc ((hsb m x).mpr hlt))
          rcases List.mem_cons.mp hu with rfl | hmem
          · exact le_refl _
          · exact hxm.trans (hm ▸ h2 u hmem)

/-! ### First-insertion-order deduplication lemmas -/

theorem mem_dedupFirstAux (d : String) :
    ∀ (l seen : List String), d ∈ dedupFirstAux seen l ↔ d ∈ l ∧ d ∉ seen
  | [], seen => by simp [dedupFirstAux]
  | x :: rest, seen => by
    unfold dedupFirstAux
    by_cases hc : seen.contains x = true
    · rw [if_pos hc]
      have hxs : x ∈ seen := List.elem_iff.mp hc
      rw [mem_dedupFirstAux d rest seen]
      constructor
      · exact fun ⟨h1, h2⟩ => ⟨List.mem_cons_of_mem x h1, h2⟩
      · rintro ⟨h1, h2⟩
        rcases List.mem_cons.mp h1 with rfl | h1'
        · exact absurd hxs h2
        · exact ⟨h1', h2⟩
    · rw [if_neg hc]
      have hxs : x ∉ seen := fun h => hc (List.elem_iff.mpr h)
      rw [List.mem_cons, mem_dedupFirstAux d rest (x :: seen)]
      constructor
      · rintro (rfl | ⟨h1, h2⟩)
        · exact ⟨List.mem_cons_self _ _, hxs⟩
        · exact ⟨List.mem_cons_of_mem x h1, fun h => h2 (List.mem_cons_of_mem x h)⟩
      · rintro ⟨h1, h2⟩
        rcases List.mem_cons.mp h1 with rfl | h1'
        · exact Or.inl rfl
        · by_cases hdx : d = x
          · exact Or.inl hdx
          · exact Or.inr ⟨h1', fun h => by
              rcases List.mem_cons.mp h with h' | h'
              · exact hdx h'
              · exact h2 h'⟩

theorem nodup_dedupFirstAux :
    ∀ (l seen : List String), (dedupFirstAux seen l).Nodup
  | [], seen => List.nodup_nil
  | x :: rest, seen => by
    unfold dedupFirstAux
    by_cases hc : seen.contains x = true
    · rw [if_pos hc]
      exact nodup_dedupFirstAux rest seen
    · rw [if_neg hc]
      refine List.nodup_cons.mpr ⟨?_, nodup_dedupFirstAux rest (x :: seen)⟩
      intro hx
      exact ((mem_dedupFirstAux x rest (x :: seen)).mp hx).2 (List.mem_cons_self _ _)

/-! ### Summary-builder claims -/

/-- C6: `getAnalyticsSummary` returns no summary exactly on the empty
batch, and on a non-empty batch of only positive amounts the summary has
`totalSpending = 0`, an empty `spikesData` series, and the category
aggregation (`getChartData`) is empty as well. -/
theorem claim_C6 (b : List Transaction) :
    (getAnalyticsSummary b = none ↔ b = []) ∧
    (b ≠ [] → (∀ t ∈ b, 0 < t.amount) →
      ∃ s, getAnalyticsSummary b = some s ∧ s.totalSpending = 0 ∧ s.spikesData = [] ∧
        getChartData b = []) := by
  constructor
  · unfold getAnalyticsSummary
    cases b with
    | nil => simp
    | cons x xs => simp
  · intro hb hpos
    have hne : ¬ (b.isEmpty = true) := by
      rw [List.isEmpty_iff]
      exact hb
    have hfil : b.filter (fun t => decide (t.amount < 0)) = [] :=
      List.filter_eq_nil_iff.mpr (fun t ht => by
        simp only [decide_eq_true_eq]
        exact not_lt_of_gt (hpos t ht))
    unfold getAnalyticsSummary
    rw [if_neg hne]
    refine ⟨_, rfl, ?_, ?_, ?_⟩
    · show (b.filter (fun t => decide (t.amount < 0))).foldl (fun acc t => acc + |t.amount|) 0 = 0
      rw [hfil]
      rfl
    · show spikesData b = []
      unfold spikesData spikePairs
      rw [hfil]
      rfl
    · unfold getChartData
      rw [hfil]
      rfl

theorem claim_C6_witness :
    (exPos ≠ [] ∧ ∀ t ∈ exPos, 0 < t.amount) ∧
    (∃ s, getAnalyticsSummary exPos = some s ∧ s.totalSpending = 0 ∧ s.spikesData = [] ∧
      getChartData exPos = []) :=
  ⟨⟨by decide, by decide⟩, (claim_C6 exPos).2 (by decide) (by decide)⟩

theorem summary_fields (b : List Transaction) (hb : b ≠ []) :
    ∃ s, getAnalyticsSummary b = some s ∧
      s.highest = (sortStable (fun a c => decide (c.amount < a.amount)) b).headI ∧
      s.lowest = (sortStable (fun a c => decide (a.amount < c.amount)) b).headI ∧
      s.spikesData = spikesData b := by
  unfold getAnalyticsSummary
  rw [if_neg (by rw [List.isEmpty_iff]; exact hb)]
  exact ⟨_, rfl, rfl, rfl, rfl⟩

/-- C8: the summary's `highest` is the record with the maximum signed
amount, `lowest` the record with the minimum signed amount, and in both
cases ties go to the first occurrence in the batch (the earlier records
are strictly worse). -/
theorem claim_C8 (b : List Transaction) (hb : b ≠ []) :
    ∃ s, getAnalyticsSummary b = some s ∧
      (∃ i : Fin b.length, b.get i = s.highest ∧
        (∀ t ∈ b, t.amount ≤ s.highest.amount) ∧
        ∀ j : Fin b.length, (j : ℕ) < (i : ℕ) → (b.get j).amount < s.highest.amount) ∧
      (∃ i : Fin b.length, b.get i = s.lowest ∧
        (∀ t ∈ b, s.lowest.amount ≤ t.amount) ∧
        ∀ j : Fin b.length, (j : ℕ) < (i : ℕ) → s.lowest.amount < (b.get j).amount) := by
  obtain ⟨s, hs, hH, hL, -⟩ := summary_fields b hb
  refine ⟨s, hs, ?_, ?_⟩
  · obtain ⟨i, h1, h2, h3⟩ := sortStable_head (fun t : Transaction => -t.amount)
      (fun a c => decide (c.amount < a.amount))
      (fun a c => by rw [decide_eq_true_eq]; exact neg_lt_neg_iff.symm) b hb
    have hhead : s.highest = b.get i := by rw [hH, headI_eq_of_head? h1]
    refine ⟨i, hhead.symm, ?_, ?_⟩
    · intro t ht
      rw [hhead]
      exact neg_le_neg_iff.mp (h2 t ht)
    · intro j hj
      rw [hhead]
      exact neg_lt_neg_iff.mp (h3 j hj)
  · obtain ⟨i, h1, h2, h3⟩ := sortStable_head (fun t : Transaction => t.amount)
      (fun a c => decide (a.amount < c.amount))
      (fun a c => by rw [decide_eq_true_eq]) b hb
    have hhead : s.lowest = b.get i := by rw [hL, headI_eq_of_head? h1]
    refine ⟨i, hhead.symm, ?_, ?_⟩
    · intro t ht
      rw [hhead]
      exact h2 t ht
    · intro j hj
      rw [hhead]
      exact h3 j hj

theorem claim_C8_witness :
    exTies ≠ [] ∧
    ∃ s, getAnalyticsSummary exTies = some s ∧
      (∃ i : Fin exTies.length, exTies.get i = s.highest ∧
        (∀ t ∈ exTies, t.amount ≤ s.highest.amount) ∧
        ∀ j : Fin exTies.length, (j : ℕ) < (i : ℕ) →
          (exTies.get j).amount < s.highest.amount) ∧
      (∃ i : Fin exTies.length, exTies.get i = s.lowest ∧
        (∀ t ∈ exTies, s.lowest.amount ≤ t.amount) ∧
        ∀ j : Fin exTies.length, (j : ℕ) < (i : ℕ) →
          s.lowest.amount < (exTies.get j).amount) :=
  ⟨by decide, claim_C8 exTies (by decide)⟩

/-- C7: `spikesData` pairs each exact date string carrying at least one
negative-amount record with the summed `abs(amount)` of its negative
records — exactly those dates, each once — sorted ascending by calendar
date; on the spec's example batch (insertion order `2024-01-02` before
`2024-01-01`) it comes out chronological. -/
theorem claim_C7 (b : List Transaction) (hb : b ≠ []) :
    ∃ s, getAnalyticsSummary b = some s ∧
      List.Pairwise (fun p q : String × ℚ => dateNum p.1 ≤ dateNum q.1) s.spikesData ∧
      (∀ p ∈ s.spikesData,
        p.2 = ((b.filter (fun t => decide (t.amount < 0) && t.date == p.1)).map
          (fun t => |t.amount|)).sum ∧
        ∃ t ∈ b, t.amount < 0 ∧ t.date = p.1) ∧
      (∀ t ∈ b, t.amount < 0 → ∃ p ∈ s.spikesData, p.1 = t.date) ∧
      (s.spikesData.map Prod.fst).Nodup ∧
      (getAnalyticsSummary exSpikes).map Summary.spikesData =
        some [("2024-01-01", (20 : ℚ)), ("2024-01-02", 50)] := by
  obtain ⟨s, hs, -, -, hSp⟩ := summary_fields b hb
  refine ⟨s, hs, ?_, ?_, ?_, ?_, ?_⟩
  · rw [hSp]
    exact sortStable_pairwise (fun p : String × ℚ => dateNum p.1) _
      (fun p q => by rw [decide_eq_true_eq]) _
  · intro p hp
    rw [hSp] at hp
    have hp' : p ∈ spikePairs b := (sortStable_perm _ _).mem_iff.mp hp
    unfold spikePairs at hp'
    obtain ⟨d, hd, rfl⟩ := List.mem_map.mp hp'
    constructor
    · show spikeAmt b d =
        ((b.filter (fun t => decide (t.amount < 0) && t.date == d)).map
          (fun t => |t.amount|)).sum
      unfold spikeAmt
      rw [foldl_add_id, zero_add]
    · have hd' : d ∈ (b.filter (fun t => decide (t.amount < 0))).map (·.date) :=
        ((mem_dedupFirstAux d _ []).mp hd).1
      obtain ⟨t, htf, rfl⟩ := List.mem_map.mp hd'
      obtain ⟨htb, htneg⟩ := List.mem_filter.mp htf
      exact ⟨t, htb, by simpa using htneg, rfl⟩
  · intro t ht htneg
    rw [hSp]
    have hdm : t.date ∈ (b.filter (fun u => decide (u.amount < 0))).map (·.date) :=
      List.mem_map.mpr ⟨t, List.mem_filter.mpr ⟨ht, by simpa using htneg⟩, rfl⟩
    have hdd : t.date ∈
        dedupFirstAux [] ((b.filter (fun u => decide (u.amount < 0))).map (·.date)) :=
      (mem_dedupFirstAux _ _ []).mpr ⟨hdm, by simp⟩
    refine ⟨(t.date, spikeAmt b t.date), ?_, rfl⟩
    exact (sortStable_perm _ _).mem_iff.mpr (List.mem_map.mpr ⟨t.date, hdd, rfl⟩)
  · rw [hSp]
    have hperm := (sortStable_perm (fun a c : String × ℚ =>
      decide (dateNum a.1 < dateNum c.1)) (spikePairs b)).map Prod.fst
    refine hperm.nodup_iff.mpr ?_
    unfold spikePairs
    rw [List.map_map]
    rw [show Prod.fst ∘ (fun d => (d, spikeAmt b d)) = id from rfl, List.map_id]
    exact nodup_dedupFirstAux _ []
  · have h1 : dateNum "2024-01-01" = 20240101 := by decide
    have h2 : dateNum "2024-01-02" = 20240102 := by decide
    simp +decide [getAnalyticsSummary, exSpikes, spikesData, spikePairs, dedupFirstAux,
      spikeAmt, sortStable, insertStable, h1, h2, List.filter]

theorem claim_C7_witness :
    exSpikes ≠ [] ∧
    ∃ s, getAnalyticsSummary exSpikes = some s ∧
      List.Pairwise (fun p q : String × ℚ => dateNum p.1 ≤ dateNum q.1) s.spikesData ∧
      (∀ p ∈ s.spikesData,
        p.2 = ((exSpikes.filter (fun t => decide (t.amount < 0) && t.date == p.1)).map
          (fun t => |t.amount|)).sum ∧
        ∃ t ∈ exSpikes, t.amount < 0 ∧ t.date = p.1) ∧
      (∀ t ∈ exSpikes, t.amount < 0 → ∃ p ∈ s.spikesData, p.1 = t.date) ∧
      (s.spikesData.map Prod.fst).Nodup ∧
      (getAnalyticsSummary exSpikes).map Summary.spikesData =
        some [("2024-01-01", (20 : ℚ)), ("2024-01-02", 50)] :=
  ⟨by decide, claim_C7 exSpikes (by decide)⟩

end StatementOCR
